import Mathlib

/-!
Verification of the resilience core of the `aynse` NSE client library:
the circuit breaker, token-bucket rate limiter, retry-wrapped HTTP client
(`src/aynse/nse/http_client.py`), connection pool
(`src/aynse/nse/connection_pool.py`) and request batcher
(`src/aynse/nse/request_batcher.py`).

Timestamps and rates are modelled as rationals; Python's `time.time()`
reads are passed in explicitly as parameters. Python exceptions are
modelled with an inductive type carrying the message string, and the
`tenacity` retry loop is modelled as a bounded recursion over a list of
per-attempt environments.
-/

namespace Aynse

/-! ## Circuit breaker (`http_client.py`, class `CircuitBreaker`) -/

/-- State of `CircuitBreaker`: configuration plus `_failures` and
`_opened_at`. -/
structure CircuitBreaker where
  failure_threshold : Nat
  reset_timeout : ℚ
  failures : Nat
  opened_at : Option ℚ
deriving Repr, DecidableEq

/-- Post-init state: `_failures = 0`, `_opened_at = None`. -/
def CircuitBreaker.init (threshold : Nat) (reset : ℚ) : CircuitBreaker :=
  ⟨threshold, reset, 0, none⟩

/-- Method `allow` evaluated at clock reading `now`: true when `_opened_at`
is unset, or when `now - _opened_at >= reset_timeout`. -/
def CircuitBreaker.allow (cb : CircuitBreaker) (now : ℚ) : Bool :=
  match cb.opened_at with
  | none => true
  | some t => decide (cb.reset_timeout ≤ now - t)

/-- Method `record_success`: reset failures and close the circuit. -/
def CircuitBreaker.record_success (cb : CircuitBreaker) : CircuitBreaker :=
  { cb with failures := 0, opened_at := none }

/-- Method `record_failure` at clock reading `now`: bump `_failures`; when
the threshold is reached set `_opened_at := now`. -/
def CircuitBreaker.record_failure (cb : CircuitBreaker) (now : ℚ) : CircuitBreaker :=
  let f := cb.failures + 1
  if cb.failure_threshold ≤ f then
    { cb with failures := f, opened_at := some now }
  else
    { cb with failures := f }

/-! ## Token bucket (`http_client.py`, class `TokenBucket`) -/

/-- State of `TokenBucket`. Tokens are Python ints; the capacity is the
`tokens` constructor argument. -/
structure TokenBucket where
  capacity : ℤ
  tokens : ℤ
  refill_rate : ℚ
  last_refill : ℚ
deriving Repr, DecidableEq

/-- Constructor: `capacity = tokens`, bucket starts full, `_last_refill`
set to the construction-time clock reading `t0`. -/
def TokenBucket.init (tokens : ℤ) (refill_rate : ℚ) (t0 : ℚ) : TokenBucket :=
  ⟨tokens, tokens, refill_rate, t0⟩

/-- Refill phase of one iteration of `acquire`: `refill = elapsed *
refill_rate`; only when `refill >= 1` are `int(refill)` tokens credited
(capped at capacity) and `_last_refill` advanced. `int` truncation equals
the floor here because the branch guarantees `refill >= 1`. -/
def TokenBucket.refillStep (tb : TokenBucket) (now : ℚ) : TokenBucket :=
  let elapsed := now - tb.last_refill
  let refill := elapsed * tb.refill_rate
  if 1 ≤ refill then
    { tb with tokens := min tb.capacity (tb.tokens + ⌊refill⌋), last_refill := now }
  else
    tb

/-- One iteration of the `acquire` busy-wait loop at clock reading `now`:
refill, then deduct `cost` if enough tokens remain (second component
`true`) or leave the tokens and report failure (`false`), after which the
caller sleeps and retries. -/
def TokenBucket.attempt (tb : TokenBucket) (now : ℚ) (cost : ℤ) : TokenBucket × Bool :=
  let tb2 := tb.refillStep now
  if cost ≤ tb2.tokens then
    ({ tb2 with tokens := tb2.tokens - cost }, true)
  else
    (tb2, false)

/-- The `acquire` loop, supplied with the list of clock readings of its
successive iterations; `none` models the loop running out of supplied
readings (the caller would still be waiting). -/
def TokenBucket.acquireFuel (tb : TokenBucket) (fuel : List ℚ) (cost : ℤ) : Option TokenBucket :=
  match fuel with
  | [] => none
  | now :: rest =>
    match tb.attempt now cost with
    | (tb2, true) => some tb2
    | (tb2, false) => tb2.acquireFuel rest cost

/-- Invariant claimed by the spec for the bucket. -/
def TokenBucket.Inv (tb : TokenBucket) : Prop :=
  0 ≤ tb.tokens ∧ tb.tokens ≤ tb.capacity

theorem TokenBucket.refillStep_inv (tb : TokenBucket) (now : ℚ) (h : tb.Inv) :
    (tb.refillStep now).Inv := by
  unfold TokenBucket.refillStep
  obtain ⟨h0, hc⟩ := h
  by_cases hr : (1:ℚ) ≤ (now - tb.last_refill) * tb.refill_rate
  · simp only [hr, if_true]
    constructor
    · have hfl : (0:ℤ) ≤ ⌊(now - tb.last_refill) * tb.refill_rate⌋ := by
        have : (1:ℤ) ≤ ⌊(now - tb.last_refill) * tb.refill_rate⌋ := by
          rw [Int.le_floor]; exact_mod_cast hr
        omega
      simp only [le_min_iff]
      exact ⟨le_trans h0 hc, by omega⟩
    · exact min_le_left _ _
  · simp only [hr, if_false]
    exact ⟨h0, hc⟩

theorem TokenBucket.attempt_inv (tb : TokenBucket) (now : ℚ) (cost : ℤ)
    (h : tb.Inv) (hc : 0 ≤ cost) : (tb.attempt now cost).1.Inv := by
  unfold TokenBucket.attempt
  have h2 := tb.refillStep_inv now h
  by_cases hd : cost ≤ (tb.refillStep now).tokens
  · simp only [hd, if_true]
    obtain ⟨a, b⟩ := h2
    refine ⟨?_, ?_⟩ <;> dsimp only [TokenBucket.Inv] <;> omega
  · simp only [hd, if_false]
    exact h2

theorem TokenBucket.foldl_attempt_inv (steps : List (ℚ × ℤ)) :
    ∀ tb : TokenBucket, tb.Inv → (∀ p ∈ steps, 0 ≤ p.2) →
    (steps.foldl (fun tb p => (tb.attempt p.1 p.2).1) tb).Inv := by
  induction steps with
  | nil => intro tb h _; simpa using h
  | cons p rest ih =>
    intro tb h hsteps
    simp only [List.foldl_cons]
    exact ih _ (tb.attempt_inv p.1 p.2 h (hsteps p (List.mem_cons_self p rest)))
      (fun q hq => hsteps q (List.mem_cons_of_mem p hq))

/-! ## Resilient sync client (`http_client.py`, class `NSEHttpClient`) -/

/-- Character-list helper for Python's substring test: does the text start
with the pattern. -/
def charsStartWith : List Char → List Char → Bool
  | [], _ => true
  | _ :: _, [] => false
  | p :: ps, c :: cs => p == c && charsStartWith ps cs

/-- Character-list helper for Python's substring test: does the pattern
occur anywhere in the text. -/
def charsContain (pat : List Char) : List Char → Bool
  | [] => charsStartWith pat []
  | c :: cs => charsStartWith pat (c :: cs) || charsContain pat cs

/-- Python's `pat in s` on strings. -/
def strContains (s pat : String) : Bool := charsContain pat.data s.data

/-- Python exceptions relevant to the client, carrying their message.
`CircuitOpenError` is a subclass of `RuntimeError`. `retryError` models
tenacity's RetryError raised when retries exhaust on a retryable result. -/
inductive PyExc where
  | httpError (msg : String)
  | circuitOpenError (msg : String)
  | runtimeError (msg : String)
  | otherError (msg : String)
  | retryError
deriving Repr, DecidableEq

/-- Message of an exception (`str(e)`). -/
def PyExc.msg : PyExc → String
  | .httpError m => m
  | .circuitOpenError m => m
  | .runtimeError m => m
  | .otherError m => m
  | .retryError => "RetryError"

/-- Whether the exception is an `httpx.HTTPError`. -/
def PyExc.isHTTPError : PyExc → Bool
  | .httpError _ => true
  | _ => false

/-- Whether the exception is a `RuntimeError` (`CircuitOpenError` is a
subclass of `RuntimeError`). -/
def PyExc.isRuntimeError : PyExc → Bool
  | .circuitOpenError _ => true
  | .runtimeError _ => true
  | _ => false

/-- The exception part of `_retry_decorator`'s predicate:
`retry_if_exception_type(httpx.HTTPError)` or a `RuntimeError` whose
message contains "client has been closed". -/
def retryCondExc (e : PyExc) : Bool :=
  e.isHTTPError || (e.isRuntimeError && strContains e.msg "client has been closed")

/-- An HTTP response: status code, `content-type` header (empty when
absent), and an abstract JSON body. -/
structure Resp where
  status : Nat
  contentType : String
  body : String
deriving Repr, DecidableEq

/-- Function `_is_retryable_response`. -/
def is_retryable_response : Option Resp → Bool
  | none => false
  | some r =>
    r.status == 302 || r.status == 403 || r.status == 429 ||
    r.status == 500 || r.status == 502 || r.status == 503 || r.status == 504

/-- Mutable state of `NSEHttpClient` relevant to the claims: the circuit
breaker and the token bucket. -/
structure ClientState where
  circuit : CircuitBreaker
  rate : TokenBucket
deriving Repr, DecidableEq

/-- Environment of one attempt of `_request_with_retry`: the clock reading
used by the circuit check and failure recording, the clock readings for
the rate-limiter loop iterations, and the transport outcome were the
request issued. -/
structure AttemptEnv where
  now : ℚ
  rateFuel : List ℚ
  transport : Except PyExc Resp
deriving Repr

/-- One attempt of the body of `_request_with_retry`: circuit check (raise
`CircuitOpenError` when the circuit refuses), rate-limiter acquire,
transport call, failure/success recording. The third component records
whether the transport was invoked; `none` models hanging in the
rate-limiter loop. The Retry-After sleep and the 403 re-priming have no
observable effect in this model. -/
def requestAttempt (st : ClientState) (env : AttemptEnv) :
    Option (ClientState × Except PyExc Resp × Bool) :=
  if st.circuit.allow env.now then
    match st.rate.acquireFuel env.rateFuel 1 with
    | none => none
    | some rate2 =>
      match env.transport with
      | .error exc =>
        some (⟨st.circuit.record_failure env.now, rate2⟩, .error exc, true)
      | .ok resp =>
        if is_retryable_response (some resp) then
          some (⟨st.circuit, rate2⟩, .ok resp, true)
        else
          some (⟨st.circuit.record_success, rate2⟩, .ok resp, true)
  else
    some (st, .error (.circuitOpenError "Circuit is open due to repeated failures"), false)

/-- Result of a call through the retry wrapper, with the number of
attempts the wrapper made and the number of transport calls issued. -/
structure CallResult where
  state : ClientState
  outcome : Except PyExc Resp
  attemptsMade : Nat
  transportCalls : Nat
deriving Repr

/-- The retry predicate of `_retry_decorator` applied to an attempt
outcome: retryable exception or retryable-status response. -/
def retryOutcome (o : Except PyExc Resp) : Bool :=
  match o with
  | .error e => retryCondExc e
  | .ok r => is_retryable_response (some r)

/-- Tenacity's bounded retry loop (`stop_after_attempt`, `reraise=True`):
re-attempt while the outcome is retryable and attempts remain; on
exhaustion re-raise the last exception, or raise RetryError when the last
outcome was a retryable response. Backoff sleeps are not observable.
`none` models a hang or an environment list shorter than the attempts
needed. -/
def retryLoop (maxAttempts : Nat) : ClientState → List AttemptEnv → Nat → Nat → Option CallResult
  | _, [], _, _ => none
  | st, env :: rest, made, calls =>
    match requestAttempt st env with
    | none => none
    | some (st2, outcome, tcalled) =>
      let made2 := made + 1
      let calls2 := calls + (if tcalled then 1 else 0)
      if retryOutcome outcome then
        if made2 < maxAttempts then
          retryLoop maxAttempts st2 rest made2 calls2
        else
          match outcome with
          | .error e => some ⟨st2, .error e, made2, calls2⟩
          | .ok _ => some ⟨st2, .error .retryError, made2, calls2⟩
      else
        some ⟨st2, outcome, made2, calls2⟩

/-- Method `_request_with_retry`: the attempt body under
`_retry_decorator()` with `stop_after_attempt(5)`. -/
def request_with_retry (st : ClientState) (envs : List AttemptEnv) : Option CallResult :=
  retryLoop 5 st envs 0 0

/-- Result of `get_json`: like `CallResult` but the success value is the
parsed body. -/
structure JsonCallResult where
  state : ClientState
  outcome : Except PyExc String
  attemptsMade : Nat
  transportCalls : Nat
deriving Repr

/-- Method `get_json`: perform the request through the retry wrapper, then
check the `content-type` header; on a mismatch raise
`httpx.HTTPError("Unexpected content-type: ...")`. The check sits outside
the function wrapped by `_retry_decorator`. -/
def get_json (st : ClientState) (envs : List AttemptEnv) : Option JsonCallResult :=
  match request_with_retry st envs with
  | none => none
  | some r =>
    match r.outcome with
    | .error e => some ⟨r.state, .error e, r.attemptsMade, r.transportCalls⟩
    | .ok resp =>
      if strContains resp.contentType "application/json" then
        some ⟨r.state, .ok resp.body, r.attemptsMade, r.transportCalls⟩
      else
        some ⟨r.state,
          .error (.httpError ("Unexpected content-type: " ++ resp.contentType)),
          r.attemptsMade, r.transportCalls⟩

/-- Fresh sync client state with the default circuit breaker
(`failure_threshold = 50`) and a full token bucket. -/
def freshClient : ClientState :=
  ⟨CircuitBreaker.init 50 30, TokenBucket.init 10 10 0⟩

/-- Five attempt environments in which the transport always answers
status 200 with an HTML page (a blocked-page response). -/
def htmlEnvs : List AttemptEnv :=
  [⟨0, [0], .ok ⟨200, "text/html", "<html>"⟩⟩,
   ⟨0, [0], .ok ⟨200, "text/html", "<html>"⟩⟩,
   ⟨0, [0], .ok ⟨200, "text/html", "<html>"⟩⟩,
   ⟨0, [0], .ok ⟨200, "text/html", "<html>"⟩⟩,
   ⟨0, [0], .ok ⟨200, "text/html", "<html>"⟩⟩]

/-- Claim C1, evaluated at the failing input: when every transport answer
is a 200 HTML page, `get_json` surfaces the content-type-mismatch
`HTTPError` after a single attempt and a single transport call, although
five attempt environments are available and although the raised error is
classified as retryable by the retry predicate. The error is raised
outside the function wrapped by `_retry_decorator`, so the bounded-retry
loop never re-attempts it, contradicting both the claim and the source's
own comment that the raise forces a retry. -/
theorem get_json_content_type_error_not_retried :
    (get_json freshClient htmlEnvs).map (fun r => (r.outcome, r.attemptsMade, r.transportCalls)) =
      some (.error (.httpError "Unexpected content-type: text/html"), 1, 1) ∧
    retryCondExc (.httpError "Unexpected content-type: text/html") = true ∧
    htmlEnvs.length = 5 := by
  refine ⟨?_, by decide, by decide⟩
  have hrefill : (decide ((1:ℚ) ≤ ((0:ℚ) - 0) * 10)) = false := by norm_num
  have hctype : strContains "text/html" "application/json" = false := by decide
  simp [get_json, request_with_retry, retryLoop, requestAttempt, freshClient, htmlEnvs,
    CircuitBreaker.init, CircuitBreaker.allow, CircuitBreaker.record_success,
    TokenBucket.init, TokenBucket.acquireFuel, TokenBucket.attempt, TokenBucket.refillStep,
    is_retryable_response, retryOutcome, retryCondExc, PyExc.isHTTPError, hctype, hrefill]

/-- Claim C3: whenever the circuit breaker refuses at the first attempt,
the call fails at once with the `CircuitOpenError`: one attempt, zero
transport calls, rate limiter and circuit state untouched, and no
re-attempt regardless of how many further attempt environments are
available. -/
theorem circuit_open_fails_fast (st : ClientState) (env : AttemptEnv)
    (rest : List AttemptEnv) (h : st.circuit.allow env.now = false) :
    request_with_retry st (env :: rest) =
      some ⟨st, .error (.circuitOpenError "Circuit is open due to repeated failures"), 1, 0⟩ := by
  have hmsg : retryCondExc (.circuitOpenError "Circuit is open due to repeated failures") = false := by
    decide
  simp [request_with_retry, retryLoop, requestAttempt, h, retryOutcome, hmsg]

/-- Witness for C3: a client whose circuit opened at time 0 with
`reset_timeout = 30`, checked at time 1. -/
theorem circuit_open_fails_fast_witness :
    ((⟨⟨50, 30, 50, some 0⟩, TokenBucket.init 10 10 0⟩ : ClientState).circuit.allow 1 = false) ∧
    request_with_retry ⟨⟨50, 30, 50, some 0⟩, TokenBucket.init 10 10 0⟩
        [⟨1, [1], .ok ⟨200, "text/html", "x"⟩⟩] =
      some ⟨⟨⟨50, 30, 50, some 0⟩, TokenBucket.init 10 10 0⟩,
        .error (.circuitOpenError "Circuit is open due to repeated failures"), 1, 0⟩ := by
  have h : ((⟨⟨50, 30, 50, some 0⟩, TokenBucket.init 10 10 0⟩ : ClientState).circuit.allow 1 = false) := by
    simp [CircuitBreaker.allow]
  exact ⟨h, circuit_open_fails_fast _ _ _ h⟩

/-- Claim C4: with `failure_threshold = 3` starting closed, `allow()` is
still true after two `record_failure()` calls, becomes false after exactly
three (while less than `reset_timeout` has elapsed since the opening
failure), and becomes true again once `reset_timeout` has elapsed, with no
`record_success`/`record_failure` in between. -/
theorem circuit_breaker_threshold_and_reset (r t1 t2 t3 now now2 : ℚ)
    (hnow : now - t3 < r) (hnow2 : t3 + r ≤ now2) :
    (((CircuitBreaker.init 3 r).record_failure t1).record_failure t2).allow now = true ∧
    ((((CircuitBreaker.init 3 r).record_failure t1).record_failure t2).record_failure t3).allow now = false ∧
    ((((CircuitBreaker.init 3 r).record_failure t1).record_failure t2).record_failure t3).allow now2 = true := by
  refine ⟨?_, ?_, ?_⟩ <;>
    simp only [CircuitBreaker.init, CircuitBreaker.record_failure, CircuitBreaker.allow] <;>
    norm_num
  · linarith
  · linarith

/-- Witness for C4 at `reset_timeout = 1`, failures at times 0, checking
`allow` at time 0 (open) and time 1 (half-open again). -/
theorem circuit_breaker_threshold_and_reset_witness :
    (0:ℚ) - 0 < 1 ∧ (0:ℚ) + 1 ≤ 1 ∧
    ((((CircuitBreaker.init 3 1).record_failure 0).record_failure 0).allow 0 = true ∧
     (((((CircuitBreaker.init 3 1).record_failure 0).record_failure 0).record_failure 0).allow 0 = false ∧
      ((((CircuitBreaker.init 3 1).record_failure 0).record_failure 0).record_failure 0).allow 1 = true)) := by
  refine ⟨by norm_num, by norm_num, ?_⟩
  have h := circuit_breaker_threshold_and_reset 1 0 0 0 0 1 (by norm_num) (by norm_num)
  exact ⟨h.1, h.2.1, h.2.2⟩

/-- Claim C6, counterexample: the number of tokens credited by a refill is
not in general `elapsed * refill_rate` (capped at capacity). With capacity
10, 0 tokens, rate 1 and elapsed 3/2, the code credits `int(3/2) = 1`
token, not 3/2. -/
theorem token_bucket_refill_not_exact_counterexample :
    ¬ ((((⟨10, 0, 1, 0⟩ : TokenBucket).refillStep (3/2)).tokens : ℚ) =
      min ((10:ℤ) : ℚ) (((0:ℤ) : ℚ) + ((3/2 : ℚ) - 0) * 1)) := by
  norm_num [TokenBucket.refillStep]

/-- Claim C6 amended: on each acquire attempt, when `elapsed * refill_rate
>= 1` the refill credits `⌊elapsed * refill_rate⌋` tokens capped at
capacity and advances `last_refill`; when the product is below 1 no tokens
are credited and `last_refill` is unchanged. -/
theorem token_bucket_refill_floor (tb : TokenBucket) (now : ℚ) :
    ((1:ℚ) ≤ (now - tb.last_refill) * tb.refill_rate →
      (tb.refillStep now).tokens =
        min tb.capacity (tb.tokens + ⌊(now - tb.last_refill) * tb.refill_rate⌋) ∧
      (tb.refillStep now).last_refill = now) ∧
    ((now - tb.last_refill) * tb.refill_rate < 1 → tb.refillStep now = tb) := by
  constructor
  · intro h
    simp [TokenBucket.refillStep, h]
  · intro h
    simp only [TokenBucket.refillStep, not_le.mpr h, if_false]

/-- Witness for C6: evaluating the amended refill law on the concrete
bucket of the counterexample. -/
theorem token_bucket_refill_floor_witness :
    (1:ℚ) ≤ ((3/2 : ℚ) - (⟨10, 0, 1, 0⟩ : TokenBucket).last_refill) * (⟨10, 0, 1, 0⟩ : TokenBucket).refill_rate ∧
    ((⟨10, 0, 1, 0⟩ : TokenBucket).refillStep (3/2)).tokens =
      min (⟨10, 0, 1, 0⟩ : TokenBucket).capacity
        ((⟨10, 0, 1, 0⟩ : TokenBucket).tokens +
          ⌊((3/2 : ℚ) - (⟨10, 0, 1, 0⟩ : TokenBucket).last_refill) * (⟨10, 0, 1, 0⟩ : TokenBucket).refill_rate⌋) :=
  ⟨by norm_num, ((token_bucket_refill_floor ⟨10, 0, 1, 0⟩ (3/2)).1 (by norm_num)).1⟩

/-- Claim C7: for a bucket constructed with capacity `c ≥ 0`, the invariant
`0 ≤ tokens ≤ capacity` holds after construction and is preserved across
every acquire-loop iteration (refill plus possible deduction) for any
sequence of clock readings and nonnegative costs. -/
theorem token_bucket_invariant (c : ℤ) (r t0 : ℚ) (hc : 0 ≤ c)
    (steps : List (ℚ × ℤ)) (hsteps : ∀ p ∈ steps, 0 ≤ p.2) :
    (TokenBucket.init c r t0).Inv ∧
    (steps.foldl (fun tb p => (tb.attempt p.1 p.2).1) (TokenBucket.init c r t0)).Inv := by
  have hinit : (TokenBucket.init c r t0).Inv := ⟨hc, le_refl _⟩
  exact ⟨hinit, TokenBucket.foldl_attempt_inv steps _ hinit hsteps⟩

/-- Witness for C7: capacity 10, rate 10, three acquire iterations. -/
theorem token_bucket_invariant_witness :
    (0:ℤ) ≤ 10 ∧
    (∀ p ∈ [((1:ℚ), (1:ℤ)), (2, 3), (3, 1)], 0 ≤ p.2) ∧
    ((TokenBucket.init 10 10 0).Inv ∧
      ([((1:ℚ), (1:ℤ)), (2, 3), (3, 1)].foldl
        (fun tb p => (tb.attempt p.1 p.2).1) (TokenBucket.init 10 10 0)).Inv) :=
  ⟨by norm_num, by decide,
    token_bucket_invariant 10 10 0 (by norm_num) [((1:ℚ), (1:ℤ)), (2, 3), (3, 1)] (by decide)⟩

/-! ## Request batcher (`request_batcher.py`, class `RequestBatcher`)

Request dicts are an abstract type `ρ`; the caller-supplied
`request_func` either returns data or raises, modelled as
`ρ → Except String α` (the `String` is `str(e)` of the raised exception);
per-item wall-clock durations are supplied by `dur : ρ → ℚ`. In the
parallel strategy the order in which worker futures complete is supplied
as the list `order` of batch indices, one entry per completion event. -/

variable {ρ α : Type}

/-- Enum `BatchStrategy`. -/
inductive BatchStrategy where
  | sequential
  | parallel
  | adaptive
deriving Repr, DecidableEq

/-- Dataclass `BatchResult`. -/
structure BatchResult (α : Type) where
  success : Bool
  data : Option α
  error : Option String
  duration : ℚ
  retries : Nat
deriving Repr

/-- Configuration of `RequestBatcher` relevant to the claims. -/
structure BatcherConfig where
  max_batch_size : Nat
  max_concurrent_batches : Nat
  strategy : BatchStrategy
deriving Repr, DecidableEq

/-- Chunking loop of `_create_batches`, structurally recursive on a fuel
bound for the number of chunks; each step takes `max_batch_size` elements
(`requests[i : i + max_batch_size]`). -/
def createBatchesGo (size : Nat) : Nat → List ρ → List (List ρ)
  | _, [] => []
  | 0, _ :: _ => []
  | fuel + 1, x :: xs => (x :: xs.take (size - 1)) :: createBatchesGo size fuel (xs.drop (size - 1))

/-- Method `_create_batches`: split the request list into consecutive
chunks of `max_batch_size` (the list length bounds the chunk count). -/
def createBatches (size : Nat) (l : List ρ) : List (List ρ) :=
  createBatchesGo size l.length l

/-- The per-item body shared by `_process_batch_sequential` and the async
path: call the request function, convert a raised exception into a failed
`BatchResult` carrying `str(e)`, a success into a successful one. -/
def itemResult (f : ρ → Except String α) (dur : ρ → ℚ) (r : ρ) : BatchResult α :=
  match f r with
  | .ok d => ⟨true, some d, none, dur r, 0⟩
  | .error e => ⟨false, none, some e, dur r, 0⟩

/-- Method `_process_batch_sequential`: process the items of one batch in
order, never letting a per-item exception escape. -/
def processBatchSequential (f : ρ → Except String α) (dur : ρ → ℚ) (batch : List ρ) :
    List (BatchResult α) :=
  batch.map (itemResult f dur)

/-- Flattening loop at the end of `_process_batch_parallel`: skip slots
that are unset or hold an empty list (`if batch_results:`), extend with
the rest. -/
def flattenSlots : List (Option (List (BatchResult α))) → List (BatchResult α)
  | [] => []
  | none :: rest => flattenSlots rest
  | some rs :: rest => if rs.isEmpty then flattenSlots rest else rs ++ flattenSlots rest

/-- Method `_process_batch_parallel`: pre-allocate one slot per batch,
let worker futures complete in the supplied `order` writing each batch's
sequential results into its own slot, then flatten in slot order. The
per-batch exception handler of the source is unreachable here because the
embedded batch body is total. -/
def processBatchParallel (f : ρ → Except String α) (dur : ρ → ℚ)
    (batches : List (List ρ)) (order : List Nat) : List (BatchResult α) :=
  flattenSlots
    (order.foldl
      (fun slots i => slots.set i (some (processBatchSequential f dur (batches.getD i []))))
      (List.replicate batches.length none))

/-- Method `_process_batch_sequential_adaptive`: process batches in order
accumulating results; the rolling-average bookkeeping only inserts a
`time.sleep` and changes no result. -/
def processBatchSequentialAdaptive (f : ρ → Except String α) (dur : ρ → ℚ)
    (batches : List (List ρ)) : List (BatchResult α) :=
  batches.foldl (fun acc b => acc ++ processBatchSequential f dur b) []

/-- Method `_process_batch_adaptive`: parallel processing when the number
of chunks is at most `max_concurrent_batches`, else the adaptive
sequential loop. -/
def processBatchAdaptive (f : ρ → Except String α) (dur : ρ → ℚ) (maxConc : Nat)
    (batches : List (List ρ)) (order : List Nat) : List (BatchResult α) :=
  if batches.length ≤ maxConc then processBatchParallel f dur batches order
  else processBatchSequentialAdaptive f dur batches

/-- Method `batch_requests`: empty input short-circuits to `[]`; otherwise
chunk and dispatch on the strategy (statistics updates do not affect the
returned list). -/
def batch_requests (cfg : BatcherConfig) (reqs : List ρ) (f : ρ → Except String α)
    (dur : ρ → ℚ) (order : List Nat) : List (BatchResult α) :=
  if reqs.isEmpty then []
  else
    let batches := createBatches cfg.max_batch_size reqs
    match cfg.strategy with
    | .sequential => batches.foldl (fun acc b => acc ++ processBatchSequential f dur b) []
    | .parallel => processBatchParallel f dur batches order
    | .adaptive => processBatchAdaptive f dur cfg.max_concurrent_batches batches order

theorem createBatchesGo_flatten (size : Nat) (_hsize : 1 ≤ size) :
    ∀ (fuel : Nat) (l : List ρ), l.length ≤ fuel → (createBatchesGo size fuel l).flatten = l := by
  intro fuel
  induction fuel with
  | zero =>
    intro l hl
    match l with
    | [] => rfl
    | x :: xs => simp at hl
  | succ n ih =>
    intro l hl
    match l with
    | [] => rfl
    | x :: xs =>
      simp only [createBatchesGo, List.flatten_cons]
      have hdrop : (xs.drop (size - 1)).length ≤ n := by
        have := List.length_drop (size - 1) xs
        simp only [List.length_cons] at hl
        omega
      rw [ih _ hdrop]
      simp [List.take_append_drop]

theorem createBatches_flatten (size : Nat) (hsize : 1 ≤ size) (l : List ρ) :
    (createBatches size l).flatten = l :=
  createBatchesGo_flatten size hsize l.length l (le_refl _)

theorem foldl_append_eq_flatten (g : List ρ → List (BatchResult α)) :
    ∀ (batches : List (List ρ)) (acc : List (BatchResult α)),
    batches.foldl (fun acc b => acc ++ g b) acc = acc ++ (batches.map g).flatten := by
  intro batches
  induction batches with
  | nil => intro acc; simp
  | cons b rest ih =>
    intro acc
    simp only [List.foldl_cons, List.map_cons, List.flatten_cons, ih, List.append_assoc]

theorem flattenSlots_map_some (l : List (List (BatchResult α))) :
    flattenSlots (l.map some) = l.flatten := by
  induction l with
  | nil => rfl
  | cons rs rest ih =>
    simp only [List.map_cons, flattenSlots, List.flatten_cons, ih]
    by_cases h : rs.isEmpty
    · rw [if_pos h, List.isEmpty_iff.mp h, List.nil_append]
    · rw [if_neg h]

theorem foldl_set_fills (g : Nat → List (BatchResult α)) (n : Nat) :
    ∀ (order : List Nat) (slots : List (Option (List (BatchResult α)))),
    slots.length = n →
    (∀ i, i < n → i ∈ order ∨ slots.get? i = some (some (g i))) →
    order.foldl (fun s i => s.set i (some (g i))) slots =
      (List.range n).map (fun i => some (g i)) := by
  intro order
  induction order with
  | nil =>
    intro slots hlen hcov
    apply List.ext
    intro i
    by_cases hi : i < n
    · have h := (hcov i hi).resolve_left (by simp)
      rw [List.foldl_nil, h, List.get?_map, List.get?_range hi]
      rfl
    · have h1 : slots.get? i = none := List.get?_eq_none.mpr (by omega)
      have h2 : ((List.range n).map (fun i => some (g i))).get? i = none := by
        apply List.get?_eq_none.mpr
        simp only [List.length_map, List.length_range]
        omega
      rw [List.foldl_nil, h1, h2]
  | cons j rest ih =>
    intro slots hlen hcov
    simp only [List.foldl_cons]
    apply ih
    · simp [hlen]
    · intro i hi
      rcases hcov i hi with hmem | hget
      · rcases List.mem_cons.mp hmem with rfl | hmem2
        · right
          exact List.get?_set_eq_of_lt _ (by omega)
        · left; exact hmem2
      · by_cases hij : j = i
        · right
          subst hij
          exact List.get?_set_eq_of_lt _ (by omega)
        · right
          rw [List.get?_set_ne _ _ hij, hget]

theorem range_map_getD (g : List ρ → List (BatchResult α)) (l : List (List ρ)) :
    (List.range l.length).map (fun i => g (l.getD i [])) = l.map g := by
  induction l with
  | nil => rfl
  | cons b rest ih =>
    simp only [List.length_cons, List.range_succ_eq_map, List.map_cons, List.getD_cons_zero,
      List.map_map]
    have h : ((fun i => g ((b :: rest).getD i [])) ∘ Nat.succ) = fun i => g (rest.getD i []) := by
      funext i
      simp [List.getD_cons_succ]
    rw [h, ih]

theorem processBatchParallel_eq_flatten (f : ρ → Except String α) (dur : ρ → ℚ)
    (batches : List (List ρ)) (order : List Nat)
    (hcov : ∀ i, i < batches.length → i ∈ order) :
    processBatchParallel f dur batches order =
      (batches.map (processBatchSequential f dur)).flatten := by
  unfold processBatchParallel
  rw [foldl_set_fills _ batches.length order (List.replicate batches.length none)
    (List.length_replicate _ _) (fun i hi => Or.inl (hcov i hi))]
  have h1 : (List.range batches.length).map
      (fun i => some (processBatchSequential f dur (batches.getD i []))) =
      ((List.range batches.length).map
        (fun i => processBatchSequential f dur (batches.getD i []))).map some := by
    simp [List.map_map, Function.comp]
  rw [h1, flattenSlots_map_some, range_map_getD]

/-- Key helper: under any strategy, with a positive chunk size and a
completion order covering every chunk index, `batch_requests` returns
exactly the per-item outcomes of the input list, in input order. -/
theorem batch_requests_eq_map (cfg : BatcherConfig) (reqs : List ρ)
    (f : ρ → Except String α) (dur : ρ → ℚ) (order : List Nat)
    (hsize : 1 ≤ cfg.max_batch_size)
    (hcov : ∀ i, i < (createBatches cfg.max_batch_size reqs).length → i ∈ order) :
    batch_requests cfg reqs f dur order = reqs.map (itemResult f dur) := by
  unfold batch_requests
  by_cases hreqs : reqs.isEmpty
  · rw [List.isEmpty_iff] at hreqs
    simp [hreqs]
  · simp only [hreqs, if_false]
    have hflat : ((createBatches cfg.max_batch_size reqs).map
        (processBatchSequential f dur)).flatten = reqs.map (itemResult f dur) := by
      rw [show processBatchSequential f dur = List.map (itemResult f dur) from rfl,
        ← List.map_flatten, createBatches_flatten _ hsize]
    have hseq : (createBatches cfg.max_batch_size reqs).foldl
        (fun acc b => acc ++ processBatchSequential f dur b) [] =
        reqs.map (itemResult f dur) := by
      rw [foldl_append_eq_flatten, List.nil_append, hflat]
    have hpar : processBatchParallel f dur (createBatches cfg.max_batch_size reqs) order =
        reqs.map (itemResult f dur) := by
      rw [processBatchParallel_eq_flatten f dur _ order hcov, hflat]
    match hstrat : cfg.strategy with
    | .sequential => exact hseq
    | .parallel => exact hpar
    | .adaptive =>
      unfold processBatchAdaptive
      by_cases hn : (createBatches cfg.max_batch_size reqs).length ≤ cfg.max_concurrent_batches
      · simp only [hn, if_true]
        exact hpar
      · simp only [hn, if_false]
        unfold processBatchSequentialAdaptive
        exact hseq

/-- Claim C2: under every strategy, with a positive chunk size and a
completion order covering every chunk index, `batch_requests` returns a
list of the input's length whose i-th element is the outcome of the i-th
input request (independent of the completion order, which appears only on
the left of the equalities), and returns `[]` on empty input. -/
theorem batch_requests_length_and_order (cfg : BatcherConfig) (reqs : List ρ)
    (f : ρ → Except String α) (dur : ρ → ℚ) (order : List Nat)
    (hsize : 1 ≤ cfg.max_batch_size)
    (hcov : ∀ i, i < (createBatches cfg.max_batch_size reqs).length → i ∈ order) :
    (batch_requests cfg reqs f dur order).length = reqs.length ∧
    (∀ i, (batch_requests cfg reqs f dur order).get? i = (reqs.get? i).map (itemResult f dur)) ∧
    (reqs = [] → batch_requests cfg reqs f dur order = []) := by
  have h := batch_requests_eq_map cfg reqs f dur order hsize hcov
  refine ⟨?_, ?_, ?_⟩
  · rw [h, List.length_map]
  · intro i
    rw [h, List.get?_map]
  · intro hre
    subst hre
    rfl

/-- Witness for C2: three requests, chunk size 2, parallel strategy with
completion order `[1, 0]` (second chunk finishes first). -/
theorem batch_requests_length_and_order_witness :
    1 ≤ (⟨2, 1, .parallel⟩ : BatcherConfig).max_batch_size ∧
    (∀ i, i < (createBatches (⟨2, 1, .parallel⟩ : BatcherConfig).max_batch_size
      [1, 2, 3]).length → i ∈ [1, 0]) ∧
    (batch_requests ⟨2, 1, .parallel⟩ [1, 2, 3]
      (fun n => Except.ok n) (fun _ => (0 : ℚ)) [1, 0]).length = 3 :=
  ⟨by decide, by decide,
    (batch_requests_length_and_order ⟨2, 1, .parallel⟩ [1, 2, 3]
      (fun n => Except.ok n) (fun _ => (0 : ℚ)) [1, 0] (by decide) (by decide)).1⟩

/-- Claim C5: when the request function raises for the item at index `i`
and succeeds elsewhere, no strategy lets the exception escape: the i-th
result is a failed `BatchResult` whose error is exactly the raised
message, every other slot is successful, and `batch_requests` (a total
function here) returns the full list. -/
theorem batch_item_failure_isolated (cfg : BatcherConfig) (reqs : List ρ)
    (f : ρ → Except String α) (dur : ρ → ℚ) (order : List Nat) (i : Nat) (emsg : String)
    (hsize : 1 ≤ cfg.max_batch_size)
    (hcov : ∀ j, j < (createBatches cfg.max_batch_size reqs).length → j ∈ order)
    (hi : i < reqs.length)
    (hfail : f (reqs.get ⟨i, hi⟩) = .error emsg)
    (hok : ∀ j (hj : j < reqs.length), j ≠ i → ∃ d, f (reqs.get ⟨j, hj⟩) = .ok d) :
    ((batch_requests cfg reqs f dur order).get? i).map BatchResult.success = some false ∧
    ((batch_requests cfg reqs f dur order).get? i).map BatchResult.error = some (some emsg) ∧
    ∀ j, j < reqs.length → j ≠ i →
      ((batch_requests cfg reqs f dur order).get? j).map BatchResult.success = some true := by
  have h := batch_requests_eq_map cfg reqs f dur order hsize hcov
  have hgeti : reqs.get? i = some (reqs.get ⟨i, hi⟩) := List.get?_eq_get hi
  have hfail2 := hfail
  simp only [List.get_eq_getElem] at hfail2
  refine ⟨?_, ?_, ?_⟩
  · rw [h, List.get?_map, hgeti]
    simp [itemResult, hfail2]
  · rw [h, List.get?_map, hgeti]
    simp [itemResult, hfail2]
  · intro j hj hne
    obtain ⟨d, hd⟩ := hok j hj hne
    simp only [List.get_eq_getElem] at hd
    rw [h, List.get?_map, List.get?_eq_get hj]
    simp [itemResult, hd]

/-- Witness for C5: a five-item batch whose middle item (index 2) raises,
processed in parallel with chunk size 2 and completion order `[2, 0, 1]`. -/
theorem batch_item_failure_isolated_witness :
    1 ≤ (⟨2, 3, .parallel⟩ : BatcherConfig).max_batch_size ∧
    (∀ j, j < (createBatches (⟨2, 3, .parallel⟩ : BatcherConfig).max_batch_size
      [10, 20, 30, 40, 50]).length → j ∈ [2, 0, 1]) ∧
    (2 < ([10, 20, 30, 40, 50] : List Nat).length) ∧
    ((fun n => if n = 30 then Except.error "boom" else Except.ok n)
      (([10, 20, 30, 40, 50] : List Nat).get ⟨2, by decide⟩) = .error "boom") ∧
    ((batch_requests ⟨2, 3, .parallel⟩ [10, 20, 30, 40, 50]
        (fun n => if n = 30 then Except.error "boom" else Except.ok n)
        (fun _ => (0 : ℚ)) [2, 0, 1]).get? 2).map BatchResult.success = some false := by
  have hi : (2 : Nat) < ([10, 20, 30, 40, 50] : List Nat).length := by decide
  have hfail : (fun n => if n = 30 then Except.error "boom" else Except.ok n)
      (([10, 20, 30, 40, 50] : List Nat).get ⟨2, hi⟩) = Except.error "boom" := rfl
  have hok : ∀ j (hj : j < ([10, 20, 30, 40, 50] : List Nat).length), j ≠ 2 →
      ∃ d, (fun n => if n = 30 then Except.error "boom" else Except.ok n)
        (([10, 20, 30, 40, 50] : List Nat).get ⟨j, hj⟩) = Except.ok d := by
    intro j hj hne
    have hj5 : j < 5 := by simpa using hj
    interval_cases j
    · exact ⟨10, rfl⟩
    · exact ⟨20, rfl⟩
    · exact absurd rfl hne
    · exact ⟨40, rfl⟩
    · exact ⟨50, rfl⟩
  refine ⟨by decide, by decide, hi, hfail, ?_⟩
  exact (batch_item_failure_isolated ⟨2, 3, .parallel⟩ [10, 20, 30, 40, 50]
    (fun n => if n = 30 then Except.error "boom" else Except.ok n)
    (fun _ => (0 : ℚ)) [2, 0, 1] 2 "boom" (by decide) (by decide) hi hfail hok).1

/-- Claim C9: the adaptive strategy returns exactly the parallel
strategy's results whenever the number of chunks is at most
`max_concurrent_batches`, and takes the adaptive sequential path (with its
periodic cooperative delay) exactly when the chunk count exceeds it. -/
theorem adaptive_matches_parallel (size maxConc : Nat) (reqs : List ρ)
    (f : ρ → Except String α) (dur : ρ → ℚ) (order : List Nat) :
    ((createBatches size reqs).length ≤ maxConc →
      batch_requests ⟨size, maxConc, .adaptive⟩ reqs f dur order =
        batch_requests ⟨size, maxConc, .parallel⟩ reqs f dur order) ∧
    (maxConc < (createBatches size reqs).length →
      batch_requests ⟨size, maxConc, .adaptive⟩ reqs f dur order =
        processBatchSequentialAdaptive f dur (createBatches size reqs)) := by
  constructor
  · intro h
    unfold batch_requests
    by_cases hre : reqs.isEmpty
    · simp [hre]
    · simp only [hre, if_false]
      unfold processBatchAdaptive
      simp [h]
  · intro h
    unfold batch_requests
    by_cases hre : reqs.isEmpty
    · rw [List.isEmpty_iff] at hre
      subst hre
      simp [createBatches, createBatchesGo] at h
    · simp only [hre, if_false]
      unfold processBatchAdaptive
      simp [Nat.not_le.mpr h]

/-- Witness for C9: three requests in two chunks with
`max_concurrent_batches = 3`, so adaptive dispatches to parallel. -/
theorem adaptive_matches_parallel_witness :
    (createBatches 2 ([1, 2, 3] : List Nat)).length ≤ 3 ∧
    batch_requests ⟨2, 3, .adaptive⟩ ([1, 2, 3] : List Nat)
        (fun n => Except.ok n) (fun _ => (0 : ℚ)) [0, 1] =
      batch_requests ⟨2, 3, .parallel⟩ ([1, 2, 3] : List Nat)
        (fun n => Except.ok n) (fun _ => (0 : ℚ)) [0, 1] :=
  ⟨by decide,
    (adaptive_matches_parallel 2 3 [1, 2, 3]
      (fun n => Except.ok n) (fun _ => (0 : ℚ)) [0, 1]).1 (by decide)⟩

/-! ## Connection pool (`connection_pool.py`, class `NSEConnectionPool`)

The claims concern a single host's sync bucket, so the state is that one
bucket in dict insertion order plus a fresh-instance counter modelling the
identity of constructed `NSEHttpClient` objects. Each `get_client` call
reads the clock several times; the model passes two readings per call:
`tc`, the reading taken inside `_cleanup_expired`, and `tv`, the reading
used by the subsequent `_is_valid` checks, `last_used` bumps and the
`created` stamp of a new entry. -/

/-- One bucket entry `{id: {'client': ..., 'created': ..., 'last_used': ...}}`;
`key` is the numeric suffix of the dict key `client_{n}`. -/
structure PoolEntry where
  key : Nat
  client : Nat
  created : ℚ
  last_used : ℚ
deriving Repr

/-- One host's sync bucket plus the counter of constructed clients. -/
structure PoolState where
  bucket : List PoolEntry
  nextClientId : Nat
deriving Repr

/-- Pool state before any `get_client` call. -/
def emptyPool : PoolState := ⟨[], 0⟩

/-- Method `_cleanup_expired` on one bucket at its clock reading `now`:
delete every entry with `now - created >= session_ttl`. -/
def cleanupExpired (ttl now : ℚ) (bucket : List PoolEntry) : List PoolEntry :=
  bucket.filter (fun e => decide (now - e.created < ttl))

/-- Python dict assignment `bucket[cid] = entry`: replace in place when the
key exists, append otherwise. -/
def dictSet (bucket : List PoolEntry) (e : PoolEntry) : List PoolEntry :=
  if bucket.any (fun x => x.key == e.key) then
    bucket.map (fun x => if x.key == e.key then e else x)
  else
    bucket ++ [e]

/-- Bump `last_used` of the entry with key `k` to `t`. -/
def touchEntry (bucket : List PoolEntry) (k : Nat) (t : ℚ) : List PoolEntry :=
  bucket.map (fun x => if x.key == k then { x with last_used := t } else x)

/-- Python `min(bucket.keys(), key=lambda k: bucket[k]['last_used'])`: the
first entry attaining the minimal `last_used`. -/
def minByLastUsed : List PoolEntry → Option PoolEntry
  | [] => none
  | e :: rest =>
    some (rest.foldl (fun best x => if x.last_used < best.last_used then x else best) e)

/-- Which branch of `get_client` answered the call; `emptyError` is the
`ValueError` Python's `min` raises on an empty sequence. -/
inductive GetClientBranch where
  | reused
  | created
  | lruFallback
  | emptyError
deriving Repr, DecidableEq

/-- Method `get_client` for one host: cleanup at `tc`, then reuse the
first entry valid at `tv` (`_is_valid`, bumping `last_used`), else create
a new client under the capacity guard (dict key `client_{len(bucket)}`),
else fall back to the least-recently-used entry. -/
def get_client (ttl : ℚ) (maxSessions : Nat) (st : PoolState) (tc tv : ℚ) :
    PoolState × Option Nat × GetClientBranch :=
  let bucket := cleanupExpired ttl tc st.bucket
  match bucket.find? (fun e => decide (tv - e.created < ttl)) with
  | some e => (⟨touchEntry bucket e.key tv, st.nextClientId⟩, some e.client, .reused)
  | none =>
    if bucket.length < maxSessions then
      (⟨dictSet bucket ⟨bucket.length, st.nextClientId, tv, tv⟩, st.nextClientId + 1⟩,
        some st.nextClientId, .created)
    else
      match minByLastUsed bucket with
      | some e => (⟨touchEntry bucket e.key tv, st.nextClientId⟩, some e.client, .lruFallback)
      | none => (⟨bucket, st.nextClientId⟩, none, .emptyError)

/-- Sequential (single-threaded) execution of a list of `get_client`
calls, collecting the returned client identity and the branch taken. -/
def runPool (ttl : ℚ) (maxSessions : Nat) :
    PoolState → List (ℚ × ℚ) → PoolState × List (Option Nat × GetClientBranch)
  | st, [] => (st, [])
  | st, (tc, tv) :: rest =>
    let r := get_client ttl maxSessions st tc tv
    let rr := runPool ttl maxSessions r.1 rest
    (rr.1, (r.2.1, r.2.2) :: rr.2)

theorem cleanupExpired_length_le (ttl now : ℚ) (bucket : List PoolEntry) :
    (cleanupExpired ttl now bucket).length ≤ bucket.length :=
  List.length_filter_le _ _

theorem touchEntry_length (bucket : List PoolEntry) (k : Nat) (t : ℚ) :
    (touchEntry bucket k t).length = bucket.length :=
  List.length_map _ _

theorem dictSet_length_le (bucket : List PoolEntry) (e : PoolEntry) :
    (dictSet bucket e).length ≤ bucket.length + 1 := by
  unfold dictSet
  by_cases h : bucket.any (fun x => x.key == e.key)
  · rw [if_pos h, List.length_map]
    omega
  · rw [if_neg h, List.length_append]
    simp

/-- The capacity invariant of one `get_client` call: the bucket never
grows beyond `max_sessions`. -/
theorem get_client_length_le (ttl : ℚ) (k : Nat) (st : PoolState) (tc tv : ℚ)
    (h : st.bucket.length ≤ k) :
    (get_client ttl k st tc tv).1.bucket.length ≤ k := by
  have hclean := cleanupExpired_length_le ttl tc st.bucket
  have hd := dictSet_length_le (cleanupExpired ttl tc st.bucket)
    ⟨(cleanupExpired ttl tc st.bucket).length, st.nextClientId, tv, tv⟩
  unfold get_client
  dsimp only
  split
  · dsimp only
    rw [touchEntry_length]
    omega
  · split
    · dsimp only
      omega
    · split
      · dsimp only
        rw [touchEntry_length]
        omega
      · dsimp only
        omega

theorem runPool_length_le (ttl : ℚ) (k : Nat) :
    ∀ (trace : List (ℚ × ℚ)) (st : PoolState), st.bucket.length ≤ k →
    (runPool ttl k st trace).1.bucket.length ≤ k := by
  intro trace
  induction trace with
  | nil => intro st h; exact h
  | cons p rest ih =>
    intro st h
    match p with
    | (tc, tv) =>
      exact ih _ (get_client_length_le ttl k st tc tv h)

/-- A `get_client` call on an empty bucket constructs client `n` under key
`client_0` (possible because `max_sessions ≥ 1`). -/
theorem get_client_empty (ttl : ℚ) (k : Nat) (hk : 1 ≤ k) (n : Nat) (tc tv : ℚ) :
    get_client ttl k ⟨[], n⟩ tc tv =
      (⟨[⟨0, n, tv, tv⟩], n + 1⟩, some n, .created) := by
  have h0 : 0 < k := hk
  unfold get_client cleanupExpired dictSet
  simp [h0]

/-- A `get_client` call on a one-entry bucket whose entry is unexpired at
both clock readings reuses that entry, bumping `last_used`. -/
theorem get_client_reuse (ttl : ℚ) (k : Nat) (key c0 : Nat) (t0 lu : ℚ) (n : Nat)
    (tc tv : ℚ) (hc : tc - t0 < ttl) (hv : tv - t0 < ttl) :
    get_client ttl k ⟨[⟨key, c0, t0, lu⟩], n⟩ tc tv =
      (⟨[⟨key, c0, t0, tv⟩], n⟩, some c0, .reused) := by
  unfold get_client cleanupExpired touchEntry
  simp [hc, hv]

/-- A `get_client` call on a one-entry bucket whose entry has expired at
the cleanup reading constructs a fresh client in the emptied bucket. -/
theorem get_client_expired_single (ttl : ℚ) (k : Nat) (hk : 1 ≤ k)
    (key c0 : Nat) (t0 lu : ℚ) (n : Nat) (tc tv : ℚ) (hc : ¬(tc - t0 < ttl)) :
    get_client ttl k ⟨[⟨key, c0, t0, lu⟩], n⟩ tc tv =
      (⟨[⟨0, n, tv, tv⟩], n + 1⟩, some n, .created) := by
  have h0 : 0 < k := hk
  unfold get_client cleanupExpired dictSet
  simp [hc, h0]

/-- While its single entry stays fresh, a run of `get_client` calls keeps
reusing that entry, constructing nothing. -/
theorem runPool_single_entry (ttl : ℚ) (k : Nat) (c0 : Nat) (t0 : ℚ) (n : Nat) :
    ∀ (trace : List (ℚ × ℚ)) (lu : ℚ),
    (∀ p ∈ trace, p.1 - t0 < ttl ∧ p.2 - t0 < ttl) →
    ∃ lu2, runPool ttl k ⟨[⟨0, c0, t0, lu⟩], n⟩ trace =
      (⟨[⟨0, c0, t0, lu2⟩], n⟩,
        List.replicate trace.length (some c0, GetClientBranch.reused)) := by
  intro trace
  induction trace with
  | nil => intro lu _; exact ⟨lu, rfl⟩
  | cons p rest ih =>
    intro lu h
    match p with
    | (tc, tv) =>
      have hp := h (tc, tv) (List.mem_cons_self _ _)
      have hstep := get_client_reuse ttl k 0 c0 t0 lu n tc tv hp.1 hp.2
      obtain ⟨lu2, hrest⟩ := ih tv (fun q hq => h q (List.mem_cons_of_mem _ hq))
      exact ⟨lu2, by simp [runPool, hstep, hrest, List.replicate_succ]⟩

/-- Claim C8: from an empty pool with `max_sessions = k ≥ 1`, any sequence
of `get_client` calls against one host issued before the created entry's
TTL expires constructs exactly one client (hence at most `k`), every call
after the first returns that previously created instance through the reuse
branch, and the bucket never exceeds `max_sessions` at any point of any
run. -/
theorem pool_reuses_single_client (ttl : ℚ) (k : Nat) (hk : 1 ≤ k)
    (tc1 tv1 : ℚ) (rest : List (ℚ × ℚ))
    (hfresh : ∀ p ∈ rest, p.1 - tv1 < ttl ∧ p.2 - tv1 < ttl) :
    (runPool ttl k emptyPool ((tc1, tv1) :: rest)).1.nextClientId = 1 ∧
    (runPool ttl k emptyPool ((tc1, tv1) :: rest)).1.nextClientId ≤ k ∧
    (∀ trace : List (ℚ × ℚ), (runPool ttl k emptyPool trace).1.bucket.length ≤ k) ∧
    (runPool ttl k emptyPool ((tc1, tv1) :: rest)).2 =
      (some 0, GetClientBranch.created) ::
        List.replicate rest.length (some 0, GetClientBranch.reused) := by
  have hstep := get_client_empty ttl k hk 0 tc1 tv1
  obtain ⟨lu2, hrest⟩ := runPool_single_entry ttl k 0 tv1 1 rest tv1 hfresh
  have hrun : runPool ttl k emptyPool ((tc1, tv1) :: rest) =
      (⟨[⟨0, 0, tv1, lu2⟩], 1⟩,
        (some 0, GetClientBranch.created) ::
          List.replicate rest.length (some 0, GetClientBranch.reused)) := by
    simp [runPool, emptyPool, hstep, hrest]
  refine ⟨by rw [hrun], by rw [hrun]; exact hk, ?_, by rw [hrun]⟩
  intro trace
  exact runPool_length_le ttl k trace emptyPool (by simp [emptyPool])

/-- Witness for C8: `ttl = 100`, `k = 2`, first call at time 0 and two
further calls before expiry. -/
theorem pool_reuses_single_client_witness :
    1 ≤ 2 ∧
    (∀ p ∈ [((1 : ℚ), (2 : ℚ)), (3, 3)], p.1 - 0 < 100 ∧ p.2 - 0 < 100) ∧
    (runPool 100 2 emptyPool ((0, 0) :: [((1 : ℚ), (2 : ℚ)), (3, 3)])).1.nextClientId = 1 := by
  have hfresh : ∀ p ∈ [((1 : ℚ), (2 : ℚ)), (3, 3)], p.1 - (0 : ℚ) < 100 ∧ p.2 - (0 : ℚ) < 100 := by
    intro p hp
    fin_cases hp <;> constructor <;> norm_num
  exact ⟨by norm_num, hfresh,
    (pool_reuses_single_client 100 2 (by norm_num) 0 0 [((1 : ℚ), (2 : ℚ)), (3, 3)] hfresh).1⟩

/-- Claim C10, counterexample: the cleanup scan and the reuse validity
check read the clock at different moments. With `ttl = 10` and
`max_sessions = 2`, a first call at time 0 and a second call whose cleanup
reads 9.9 but whose validity check reads 10.1 leaves the sync bucket
holding two client entries, refuting the at-most-one-entry invariant under
sequential execution. -/
theorem pool_two_entries_with_clock_drift :
    (runPool 10 2 emptyPool [(0, 0), (99/10, 101/10)]).1.bucket.length = 2 := by
  have h1 := get_client_empty 10 2 (by norm_num) 0 0 0
  have hc : ((99 : ℚ)/10) < 10 := by norm_num
  have hv : ¬(((101 : ℚ)/10) < 10) := by norm_num
  have h2 : get_client 10 2 ⟨[⟨0, 0, 0, 0⟩], 1⟩ (99/10) (101/10) =
      (⟨[⟨0, 0, 0, 0⟩, ⟨1, 1, 101/10, 101/10⟩], 2⟩, some 1, .created) := by
    unfold get_client cleanupExpired dictSet
    simp [hc, hv]
  simp [runPool, emptyPool, h1, h2]

/-- Single-call form of the amended C10: when both clock reads of one
`get_client` call coincide, a bucket of at most one entry stays at most
one entry, the LRU fallback is unreachable, and creation happens only with
an empty post-cleanup bucket. -/
theorem get_client_const_clock_step (ttl : ℚ) (k : Nat) (hk : 1 ≤ k)
    (st : PoolState) (t : ℚ) (h : st.bucket.length ≤ 1) :
    (get_client ttl k st t t).1.bucket.length ≤ 1 ∧
    (get_client ttl k st t t).2.2 ≠ GetClientBranch.lruFallback ∧
    ((get_client ttl k st t t).2.2 = GetClientBranch.created →
      cleanupExpired ttl t st.bucket = []) := by
  obtain ⟨bucket, n⟩ := st
  match bucket with
  | [] =>
    rw [get_client_empty ttl k hk n t t]
    refine ⟨by simp, by simp, ?_⟩
    intro _
    rfl
  | [e] =>
    match e with
    | ⟨key, c0, t0, lu⟩ =>
      by_cases hcv : t - t0 < ttl
      · rw [get_client_reuse ttl k key c0 t0 lu n t t hcv hcv]
        exact ⟨by simp, by simp, by simp⟩
      · rw [get_client_expired_single ttl k hk key c0 t0 lu n t t hcv]
        refine ⟨by simp, by simp, ?_⟩
        intro _
        simp [cleanupExpired, hcv]
  | e1 :: e2 :: more => simp at h

/-- Runs of constant-clock `get_client` calls keep the bucket at size at
most one. -/
theorem runPool_const_clock_len (ttl : ℚ) (k : Nat) (hk : 1 ≤ k) :
    ∀ (ts : List ℚ) (st : PoolState), st.bucket.length ≤ 1 →
    (runPool ttl k st (ts.map (fun t => (t, t)))).1.bucket.length ≤ 1 := by
  intro ts
  induction ts with
  | nil => intro st h; exact h
  | cons t rest ih =>
    intro st h
    exact ih _ (get_client_const_clock_step ttl k hk st t h).1

/-- Claim C10 amended: provided every clock read within a single
`get_client` call returns the same value (`tc = tv`) and
`max_sessions ≥ 1`, a host's sync bucket holds at most one entry at all
times under sequential execution, a new client is constructed only when
the bucket is empty after cleanup, and the LRU capacity fallback is never
reached. -/
theorem pool_single_entry_const_clock (ttl : ℚ) (k : Nat) (hk : 1 ≤ k) :
    (∀ (st : PoolState) (t : ℚ), st.bucket.length ≤ 1 →
      ((get_client ttl k st t t).1.bucket.length ≤ 1 ∧
       (get_client ttl k st t t).2.2 ≠ GetClientBranch.lruFallback ∧
       ((get_client ttl k st t t).2.2 = GetClientBranch.created →
         cleanupExpired ttl t st.bucket = []))) ∧
    (∀ ts : List ℚ,
      (runPool ttl k emptyPool (ts.map (fun t => (t, t)))).1.bucket.length ≤ 1) :=
  ⟨fun st t h => get_client_const_clock_step ttl k hk st t h,
   fun ts => runPool_const_clock_len ttl k hk ts emptyPool (by simp [emptyPool])⟩

/-- Witness for the amended C10 at `ttl = 10`, `k = 2` and a two-call
constant-clock trace. -/
theorem pool_single_entry_const_clock_witness :
    1 ≤ 2 ∧
    (runPool 10 2 emptyPool (([0, 1] : List ℚ).map (fun t => (t, t)))).1.bucket.length ≤ 1 :=
  ⟨by norm_num, (pool_single_entry_const_clock 10 2 (by norm_num)).2 [0, 1]⟩

end Aynse
